import Mathlib

/-!
Verification development for the sltools repository (a Slurm queue viewer).

The Python source under `src/sltools/` is shallowly embedded here:

* `Job` embeds the dataclass `Job` of `jobs.py`.  Integer identifiers and
  timestamps are nonnegative in Slurm and are modelled as `Nat`; resource
  quantities (`cpus`, `memory`) are modelled as `Int` with Python's floor
  division `//` rendered as `Int.fdiv`.
* `JobGroup`, `Entry`, `coalesce_jobs`, `get_smart_diff` embed the job
  coalescing machinery (`JobGroup`, `coalesce_jobs`, `_get_smart_diff`).
  Python's `Job`/`JobGroup` subclassing becomes the tagged union `Entry`.
* `sort_jobs` embeds the classifier of `jobs.py`.  Python dicts are embedded
  as insertion-ordered association lists; the `RuntimeError` that CPython
  raises when a dict is mutated during iteration is embedded as
  `Except.error`.
* `Node`, `calculate_node_usage` embed `nodes.py` / `sltop.py`.  The external
  `expand_nodelist` collaborator (a subprocess call) is a function parameter.
-/

namespace SLTools

/-- Embeds the dataclass `Job` of `src/sltools/jobs.py`. -/
structure Job where
  job_id : Nat
  partition : String
  name : String
  user_name : String
  job_state : String
  start_time : Nat
  node_count : Nat
  nodelist : String
  tres_per_node : String
  state_reason : String
  cpus : Int
  memory : Int
deriving DecidableEq, Repr, Inhabited

/-- Embeds the dataclass `JobGroup` of `src/sltools/jobs.py` (its `Job` base
fields are inlined, plus `ids` and `combined_name`). -/
structure JobGroup where
  job_id : Nat
  partition : String
  name : String
  user_name : String
  job_state : String
  start_time : Nat
  node_count : Nat
  nodelist : String
  tres_per_node : String
  state_reason : String
  cpus : Int
  memory : Int
  ids : List Nat
  combined_name : String
deriving DecidableEq, Repr, Inhabited

/-- Embeds `JobGroup.__init__`: all `Job` fields are copied from the seed job,
`ids` starts as the singleton of its id and `combined_name` as its name. -/
def JobGroup.ofJob (j : Job) : JobGroup :=
  { job_id := j.job_id, partition := j.partition, name := j.name
    user_name := j.user_name, job_state := j.job_state
    start_time := j.start_time, node_count := j.node_count
    nodelist := j.nodelist, tres_per_node := j.tres_per_node
    state_reason := j.state_reason, cpus := j.cpus, memory := j.memory
    ids := [j.job_id], combined_name := j.name }

/-- Tagged union standing for Python's `Job`-or-`JobGroup` runtime values
(`JobGroup` subclasses `Job` in the source). -/
inductive Entry where
  | job (j : Job)
  | group (g : JobGroup)
deriving DecidableEq, Repr

/-- Field access that is uniform over `Job` and `JobGroup`, as Python
attribute access is. -/
def Entry.partition : Entry → String
  | .job j => j.partition
  | .group g => g.partition

/-- Uniform access to `user_name`. -/
def Entry.user_name : Entry → String
  | .job j => j.user_name
  | .group g => g.user_name

/-- Uniform access to `job_state`. -/
def Entry.job_state : Entry → String
  | .job j => j.job_state
  | .group g => g.job_state

/-- Uniform access to `state_reason`. -/
def Entry.state_reason : Entry → String
  | .job j => j.state_reason
  | .group g => g.state_reason

/-- Embeds `name1 = current_group.combined_name if isinstance(current_group,
JobGroup) else current_group.name` in `coalesce_jobs`. -/
def Entry.displayName : Entry → String
  | .job j => j.name
  | .group g => g.combined_name

/-- Embeds `current_group = JobGroup(current_group)` applied only when the
accumulator is still a bare job. -/
def Entry.toGroup : Entry → JobGroup
  | .job j => JobGroup.ofJob j
  | .group g => g

/-- Tests whether `needle` is an initial segment of `hay` (character-wise). -/
def leadsList : List Char → List Char → Bool
  | [], _ => true
  | _ :: _, [] => false
  | a :: as, b :: bs => a = b && leadsList as bs

/-- Embeds Python `s.startswith(pre)`.  Python strings are sequences of code
points, so they are embedded through `String.data : List Char`. -/
def pyStartsWith (s pre : String) : Bool :=
  leadsList pre.data s.data

/-- Embeds Python `s.endswith(post)`. -/
def pyEndsWith (s post : String) : Bool :=
  leadsList post.data.reverse s.data.reverse

/-- Embeds the Python slice `s[n:]` (code-point based). -/
def pyDrop (s : String) (n : Nat) : String :=
  String.mk (s.data.drop n)

/-- Embeds the Python slice `s[:-n]` for `0 < n ≤ len(s)` (code-point based),
as `take (len - n)`. -/
def pyDropRight (s : String) (n : Nat) : String :=
  String.mk (s.data.take (s.data.length - n))

/-- Splits on a single-character separator, Python `s.split(sep)` style:
the empty string yields `[[]]` and separators at the ends yield empty
fields. -/
def splitOnChar (sep : Char) : List Char → List (List Char)
  | [] => [[]]
  | c :: rest =>
    let r := splitOnChar sep rest
    if c = sep then [] :: r
    else
      match r with
      | [] => [[c]]
      | h :: t => (c :: h) :: t

/-- Embeds Python `s.split(sep)` for a one-character separator. -/
def pySplit (s : String) (sep : Char) : List String :=
  (splitOnChar sep s.data).map String.mk

/-- The delimiter set of `_get_smart_diff`:  `{".", "-", "_", "/", ":"}`. -/
def isDelim (c : Char) : Bool :=
  c = '.' || c = '-' || c = '_' || c = '/' || c = ':'

/-- Length of the character-wise longest common initial segment: embeds the
`while prefix_len < min_len and s1[prefix_len] == s2[prefix_len]` loop. -/
def lcpLen : List Char → List Char → Nat
  | a :: as, b :: bs => if a = b then lcpLen as bs + 1 else 0
  | _, _ => 0

/-- Embeds the prefix-retraction loop of `_get_smart_diff`: starting from `p`,
decrease until the preceding character is a delimiter or the start is hit. -/
def retractFrontLen (l : List Char) : Nat → Nat
  | 0 => 0
  | p + 1 => if isDelim (l.getD p ' ') then p + 1 else retractFrontLen l p

/-- Embeds the suffix-retraction loop of `_get_smart_diff`: starting from `s`,
decrease until the first suffix character (`s1[len(s1) - s]`) is a delimiter
or zero is hit. -/
def retractBackLen (l : List Char) : Nat → Nat
  | 0 => 0
  | s + 1 =>
    if isDelim (l.getD (l.length - (s + 1)) ' ') then s + 1
    else retractBackLen l s

/-- Embeds `_get_smart_diff(s1, s2)` of `src/sltools/jobs.py`: `none` on equal
strings, otherwise the quadruple (prefix, diff1, diff2, suffix) computed from
the character-wise common prefix/suffix retracted to delimiter boundaries.
The Python suffix scan is capped at `min(rem1, rem2)` so it cannot overlap
the prefix. -/
def get_smart_diff (s1 s2 : String) : Option (String × String × String × String) :=
  if s1 = s2 then none
  else
    let l1 := s1.data
    let l2 := s2.data
    let pfxLen := lcpLen l1 l2
    let sfxLen :=
      min (lcpLen l1.reverse l2.reverse)
        (min (l1.length - pfxLen) (l2.length - pfxLen))
    let p := retractFrontLen l1 pfxLen
    let s := retractBackLen l1 sfxLen
    some (String.mk (l1.take p),
      String.mk ((l1.drop p).take (l1.length - s - p)),
      String.mk ((l2.drop p).take (l2.length - s - p)),
      String.mk (l1.drop (l1.length - s)))

/-- Embeds the acceptance test `(D < (L // 4)) or ((D < 5) and (D < (L // 2)))`
of `coalesce_jobs` (Python `//` on nonnegative lengths is `Nat` division). -/
def mergeCondition (D L : Nat) : Bool :=
  (D < L / 4) || ((D < 5) && (D < L / 2))

/-- Embeds the combined-name computation of `coalesce_jobs`: splice into an
existing bracket group when `diff1` is bracket-shaped, else open a new
bracket. -/
def spliceName (pfx d1 d2 sfx : String) : String :=
  if pyStartsWith d1 "[" && pyEndsWith d1 "]" then
    pfx ++ "[" ++ (pyDropRight (pyDrop d1 1) 1) ++ "," ++ d2 ++ "]" ++ sfx
  else
    pfx ++ "[" ++ d1 ++ "," ++ d2 ++ "]" ++ sfx

/-- Embeds the basic eligibility conditions of `coalesce_jobs`: neither side
RUNNING, and partition, user, state and pending reason all equal. -/
def eligible (cur : Entry) (j : Job) : Bool :=
  cur.job_state ≠ "RUNNING" && j.job_state ≠ "RUNNING"
    && cur.partition = j.partition && cur.user_name = j.user_name
    && cur.job_state = j.job_state && cur.state_reason = j.state_reason

/-- One candidate step of `coalesce_jobs`: `some merged` when the candidate
`j` merges into the accumulator `cur`, `none` when it is rejected. -/
def mergeStep (cur : Entry) (j : Job) : Option Entry :=
  if eligible cur j then
    match get_smart_diff cur.displayName j.name with
    | none => none
    | some (pfx, d1, d2, sfx) =>
      if mergeCondition d2.length j.name.length then
        let g := cur.toGroup
        some (.group { g with ids := g.ids ++ [j.job_id],
                              combined_name := spliceName pfx d1 d2 sfx })
      else none
  else none

/-- The linear scan of `coalesce_jobs`: the accumulator is flushed when a
candidate fails to merge, and flushed once more after the loop. -/
def coalesceAux (cur : Entry) : List Job → List Entry
  | [] => [cur]
  | j :: rest =>
    match mergeStep cur j with
    | some merged => coalesceAux merged rest
    | none => cur :: coalesceAux (Entry.job j) rest

/-- Embeds `coalesce_jobs` of `src/sltools/jobs.py`. -/
def coalesce_jobs : List Job → List Entry
  | [] => []
  | j :: rest => coalesceAux (Entry.job j) rest

/-- Embeds Python's substring test `needle in hay`. -/
def containsSub (needle : List Char) : List Char → Bool
  | [] => leadsList needle []
  | c :: rest => leadsList needle (c :: rest) || containsSub needle rest

/-- Embeds the test `"qos" in k.lower()` of `sort_jobs` (the category keys in
scope are ASCII, where `Char.toLower` agrees with Python `str.lower`). -/
def hasQos (k : String) : Bool :=
  containsSub "qos".data (k.data.map Char.toLower)

/-- Ordered association list lookup (first entry with the key, as in a Python
dict, whose keys are unique). -/
def alookup (d : List (String × α)) (k : String) : Option α :=
  (d.find? (fun e => e.1 == k)).map (fun e => e.2)

/-- Embeds `d.get(k, v0)` on a Python dict. -/
def getD (d : List (String × α)) (k : String) (v0 : α) : α :=
  (alookup d k).getD v0

/-- Embeds `d[k] = v` on a Python dict: an existing key keeps its position, a
new key is appended (insertion order). -/
def upsert (d : List (String × α)) (k : String) (v : α) : List (String × α) :=
  if d.any (fun e => e.1 == k) then
    d.map (fun e => if e.1 == k then (k, v) else e)
  else d ++ [(k, v)]

/-- Embeds the removal part of `d.pop(k, default)` on a Python dict. -/
def popKey (d : List (String × α)) (k : String) : List (String × α) :=
  d.filter (fun e => e.1 != k)

/-- Embeds `sort_jobs` of `src/sltools/jobs.py`.  Python's stable
`list.sort(key=...)` is embedded as `List.insertionSort` (stable, ascending);
the category dict is an insertion-ordered association list.  The loop
`for k in job_categories: if "qos" in k.lower(): ... job_categories.pop(k)`
mutates the dict during iteration, which CPython answers with
`RuntimeError: dictionary changed size during iteration` on the following
iterator step (taken even when the popped key was the last one); this is
embedded as `Except.error` whenever a qos-keyed bucket remains at that
point. -/
def sort_jobs (jobs : List Job) : Except String (List Job) :=
  let sorted := List.insertionSort (fun a b => a.job_id ≤ b.job_id) jobs
  let cats := sorted.foldl
    (fun d j =>
      let category := if j.job_state = "RUNNING" then "RUNNING" else j.state_reason
      upsert d category (getD d category [] ++ [j])) []
  let running := getD cats "RUNNING" []
  let cats := popKey cats "RUNNING"
  let resources := getD cats "Resources" []
  let cats := popKey cats "Resources"
  let priority := getD cats "Priority" []
  let cats := popKey cats "Priority"
  if cats.any (fun e => hasQos e.1) then
    Except.error "RuntimeError: dictionary changed size during iteration"
  else
    let dependency := getD cats "Dependency" []
    let cats := popKey cats "Dependency"
    Except.ok (List.insertionSort (fun a b => a.start_time ≤ b.start_time) running
      ++ resources ++ priority ++ dependency
      ++ cats.foldl (fun acc e => acc ++ e.2) [])

/-- Embeds the dataclass `Node` of `src/sltools/nodes.py`. -/
structure Node where
  name : String
  cpus : Int
  memory : Int
  gpus : Int
  architecture : String
  state : String
deriving DecidableEq, Repr, Inhabited

/-- Evaluates a nonempty all-digit character list as a decimal number,
`none` otherwise. -/
def digitsVal (l : List Char) : Option Nat :=
  if l ≠ [] ∧ l.all (fun c => c.isDigit) then
    some (l.foldl (fun acc c => 10 * acc + (c.toNat - 48)) 0)
  else none

/-- Models Python `int(s)` on the sign-and-digits tokens that occur in
resource-spec strings: `none` embeds the `ValueError` branch. -/
def parsePyInt (s : String) : Option Int :=
  match s.data with
  | '-' :: rest => (digitsVal rest).map (fun n => -(n : Int))
  | '+' :: rest => (digitsVal rest).map (fun n => (n : Int))
  | l => (digitsVal l).map (fun n => (n : Int))

/-- Embeds `Job.get_resources_per_node` of `src/sltools/jobs.py`: strip a
leading `gres/`, split on commas, and for each colon-carrying token map the
head field to the last field parsed as an integer (unparsable counts are
skipped). -/
def get_resources_per_node (j : Job) : List (String × Int) :=
  if j.tres_per_node = "" then []
  else
    let tres :=
      if pyStartsWith j.tres_per_node "gres/" then pyDrop j.tres_per_node 5
      else j.tres_per_node
    (pySplit tres ',').foldl
      (fun res part =>
        if containsSub ":".data part.data then
          let sub := pySplit part ':'
          match parsePyInt (sub.getLastD "") with
          | some v => upsert res (sub.headD "") v
          | none => res
        else res) []

/-- The per-node usage value is itself a Python dict: resource-type key
(`"cpus"`, `"gpus"`, `"memory"`) to partition-keyed count dict. -/
abbrev NodeUsage := List (String × List (String × Int))

/-- Embeds the freshly initialized per-node usage value
`{"cpus": {}, "gpus": {}, "memory": {}}` of `calculate_node_usage`. -/
def emptyUsage : NodeUsage :=
  [("cpus", []), ("gpus", []), ("memory", [])]

/-- Embeds one accumulation step
`usage[node][res][p] = usage[node][res].get(p, 0) + alloc` on one resource
kind, guarded by `alloc > 0`. -/
def bumpRes (u : NodeUsage) (res : String) (p : String) (alloc : Int) : NodeUsage :=
  if alloc > 0 then
    upsert u res (upsert (getD u res []) p (getD (getD u res []) p 0 + alloc))
  else u

/-- The three guarded accumulations of `calculate_node_usage` for one job on
one node. -/
def addAlloc (u : NodeUsage) (p : String) (cpusAlloc gpusAlloc memAlloc : Int) :
    NodeUsage :=
  bumpRes (bumpRes (bumpRes u "cpus" p cpusAlloc) "gpus" p gpusAlloc) "memory" p memAlloc

/-- The dict comprehension `{n.name: {"cpus": {}, "gpus": {}, "memory": {}}
for n in nodes}` of `calculate_node_usage`. -/
def initUsage (nodes : List Node) : List (String × NodeUsage) :=
  nodes.foldl (fun u n => upsert u n.name emptyUsage) []

/-- The per-job allocation derivation of `calculate_node_usage` (steps 2-3 of
the accountant): `(cpus_alloc, gpus_alloc, mem_alloc)`.  Python `//` on ints
is floor division, `Int.fdiv`. -/
def jobAllocs (expand : String → List String) (job : Job) : Int × Int × Int :=
  let numNodes := (expand job.nodelist).length
  let res := get_resources_per_node job
  let gpusAlloc := getD res "gpu" 0
  let cpusAlloc0 := getD res "cpu" 0
  let cpusAlloc :=
    if cpusAlloc0 = 0 ∧ job.cpus > 0 then Int.fdiv job.cpus numNodes
    else cpusAlloc0
  let memAlloc0 := getD res "mem" 0
  let memAlloc :=
    if memAlloc0 = 0 ∧ job.memory > 0 then Int.fdiv job.memory numNodes
    else memAlloc0
  (cpusAlloc, gpusAlloc, memAlloc)

/-- The body of `for node_name in affected_nodes` in `calculate_node_usage`:
skip names outside the snapshot, accumulate under the job's partition
otherwise. -/
def touchNode (job : Job) (ca ga ma : Int)
    (usage : List (String × NodeUsage)) (nodeName : String) :
    List (String × NodeUsage) :=
  if (alookup usage nodeName).isNone then usage
  else
    usage.map (fun e =>
      if e.1 == nodeName then (e.1, addAlloc e.2 job.partition ca ga ma) else e)

/-- The body of `for job in jobs` in `calculate_node_usage`: RUNNING jobs
whose expansion is nonempty touch each of their expanded nodes. -/
def applyJob (expand : String → List String)
    (usage : List (String × NodeUsage)) (job : Job) :
    List (String × NodeUsage) :=
  if job.job_state ≠ "RUNNING" then usage
  else if (expand job.nodelist).length = 0 then usage
  else
    (expand job.nodelist).foldl
      (touchNode job (jobAllocs expand job).1 (jobAllocs expand job).2.1
        (jobAllocs expand job).2.2)
      usage

/-- Embeds `calculate_node_usage` of `src/sltools/sltop.py`.  The external
collaborator `expand_nodelist` (a subprocess call in `nodes.py`) is passed as
the function `expand`. -/
def calculate_node_usage (expand : String → List String)
    (nodes : List Node) (jobs : List Job) : List (String × NodeUsage) :=
  jobs.foldl (applyJob expand) (initUsage nodes)

/-- A pending job used in concrete examples: only the identifier and the name
vary, every similarity-relevant field agrees. -/
def exJob (id : Nat) (nm : String) : Job :=
  ⟨id, "p1", nm, "u1", "PENDING", 0, 1, "", "", "Priority", 1, 1⟩

/-- Identifier content of one output element: a bare job contributes its own
identifier, a group its ids list in order. -/
def Entry.idsOf : Entry → List Nat
  | .job j => [j.job_id]
  | .group g => g.ids

/-- Concatenated identifier content of an output sequence. -/
def flattenIds (es : List Entry) : List Nat :=
  es.foldr (fun e acc => e.idsOf ++ acc) []

/-- Every id of the entry is witnessed in `S` by a job agreeing with the
entry on partition, user, state and pending reason (trivially so for a bare
job, which only has to be an element of `S`). -/
def entrySupported (S : List Job) : Entry → Prop
  | .job j0 => j0 ∈ S
  | .group g => g.job_state ≠ "RUNNING" ∧
      ∀ id ∈ g.ids, ∃ j ∈ S, j.job_id = id ∧ j.partition = g.partition ∧
        j.user_name = g.user_name ∧ j.job_state = g.job_state ∧
        j.state_reason = g.state_reason

/-- Concrete two-job snapshot whose merge pass forms one group. -/
def wGroupJobs : List Job := [exJob 3 "run_v1_final", exJob 4 "run_v2_final"]

/-- The group produced by `coalesce_jobs` on `wGroupJobs`. -/
def wGroupEntry : Entry :=
  Entry.group
    ⟨3, "p1", "run_v1_final", "u1", "PENDING", 0, 1, "", "", "Priority", 1, 1,
      [3, 4], "run_[v1,v2]_final"⟩

/-- Job A of the spec's ordering example: RUNNING, started at 100. -/
def jobA : Job := ⟨1, "p1", "jobA", "u1", "RUNNING", 100, 1, "n1", "", "None", 1, 1⟩

/-- Job B of the spec's ordering example: RUNNING, started at 50. -/
def jobB : Job := ⟨2, "p1", "jobB", "u1", "RUNNING", 50, 1, "n2", "", "None", 1, 1⟩

/-- Job C of the spec's ordering example: PENDING for Resources. -/
def jobC : Job := ⟨3, "p1", "jobC", "u1", "PENDING", 0, 1, "", "", "Resources", 1, 1⟩

/-- Job D of the spec's ordering example: PENDING for Priority. -/
def jobD : Job := ⟨4, "p1", "jobD", "u1", "PENDING", 0, 1, "", "", "Priority", 1, 1⟩

/-- A job pending for a qos-related reason. -/
def jobQ : Job :=
  ⟨5, "p1", "jobQ", "u1", "PENDING", 0, 1, "", "", "QOSMaxGRESPerUser", 1, 1⟩

/-- Another job pending for a qos-related reason, alone in its snapshot. -/
def jobQ2 : Job :=
  ⟨9, "p1", "jobQ2", "u1", "PENDING", 0, 1, "", "", "QOSMaxJobsPerUser", 1, 1⟩

/-- A node of the spec's resource-accounting example. -/
def exNode1 : Node := ⟨"n1", 32, 32000, 4, "x86_64", "IDLE"⟩

/-- Node-list expansion collaborator for the example: only "n1" is known. -/
def expandN1 : String → List String := fun s => if s = "n1" then ["n1"] else []

/-- The example's first RUNNING job: per-node spec cpu=8, gpu=2 on n1. -/
def usageJob1 : Job :=
  ⟨11, "dev", "train", "u1", "RUNNING", 0, 1, "n1", "cpu:8,gpu:2", "None", 8, 0⟩

/-- The example's second RUNNING job: per-node spec cpu=4 on n1. -/
def usageJob2 : Job :=
  ⟨12, "dev", "eval", "u1", "RUNNING", 0, 1, "n1", "cpu:4", "None", 4, 0⟩

/-! ### Lemmas about the name-diff primitives -/

theorem lcpLen_le_left : ∀ l1 l2 : List Char, lcpLen l1 l2 ≤ l1.length
  | [], _ => by simp [lcpLen]
  | _ :: _, [] => by simp [lcpLen]
  | a :: as, b :: bs => by
    simp only [lcpLen, List.length_cons]
    split
    · exact Nat.succ_le_succ (lcpLen_le_left as bs)
    · exact Nat.zero_le _

theorem lcpLen_le_right : ∀ l1 l2 : List Char, lcpLen l1 l2 ≤ l2.length
  | [], _ => by simp [lcpLen]
  | _ :: _, [] => by simp [lcpLen]
  | a :: as, b :: bs => by
    simp only [lcpLen, List.length_cons]
    split
    · exact Nat.succ_le_succ (lcpLen_le_right as bs)
    · exact Nat.zero_le _

theorem take_eq_of_le_lcpLen :
    ∀ (l1 l2 : List Char) (k : Nat), k ≤ lcpLen l1 l2 → l1.take k = l2.take k
  | _, _, 0, _ => by simp
  | [], l2, k + 1, h => by simp [lcpLen] at h
  | _ :: _, [], k + 1, h => by simp [lcpLen] at h
  | a :: as, b :: bs, k + 1, h => by
    simp only [lcpLen] at h
    split at h
    · next hab =>
      subst hab
      simpa [List.take_succ_cons] using take_eq_of_le_lcpLen as bs k (by omega)
    · omega

theorem retractFrontLen_le (l : List Char) : ∀ p, retractFrontLen l p ≤ p
  | 0 => Nat.le_refl 0
  | p + 1 => by
    simp only [retractFrontLen]
    split
    · exact Nat.le_refl _
    · exact Nat.le_succ_of_le (retractFrontLen_le l p)

theorem retractBackLen_le (l : List Char) : ∀ s, retractBackLen l s ≤ s
  | 0 => Nat.le_refl 0
  | s + 1 => by
    simp only [retractBackLen]
    split
    · exact Nat.le_refl _
    · exact Nat.le_succ_of_le (retractBackLen_le l s)

theorem retractFrontLen_boundary (l : List Char) :
    ∀ p, retractFrontLen l p = 0 ∨
      (0 < retractFrontLen l p ∧
        isDelim (l.getD (retractFrontLen l p - 1) ' ') = true)
  | 0 => Or.inl rfl
  | p + 1 => by
    simp only [retractFrontLen]
    split
    · next h => exact Or.inr ⟨Nat.succ_pos p, by simpa using h⟩
    · exact retractFrontLen_boundary l p

theorem retractBackLen_boundary (l : List Char) :
    ∀ s, retractBackLen l s = 0 ∨
      (0 < retractBackLen l s ∧
        isDelim (l.getD (l.length - retractBackLen l s) ' ') = true)
  | 0 => Or.inl rfl
  | s + 1 => by
    simp only [retractBackLen]
    split
    · next h => exact Or.inr ⟨Nat.succ_pos s, by simpa using h⟩
    · exact retractBackLen_boundary l s

/-- Recomposing the three slices `l[:a]`, `l[a:b]`, `l[b:]` gives back `l`. -/
theorem take_slice_drop (l : List Char) (a b : Nat) (hab : a ≤ b) :
    l.take a ++ ((l.drop a).take (b - a) ++ l.drop b) = l := by
  conv_rhs => rw [← List.take_append_drop a l]
  congr 1
  conv_rhs => rw [← List.take_append_drop (b - a) (l.drop a)]
  congr 1
  rw [List.drop_drop]
  congr 1
  omega

/-- Dropping all but the last `k` elements gives equal results on two lists
whose reversals agree on their first `k` elements. -/
theorem drop_eq_of_le_lcpLen_reverse (l1 l2 : List Char) (k : Nat)
    (hk : k ≤ lcpLen l1.reverse l2.reverse) :
    l1.drop (l1.length - k) = l2.drop (l2.length - k) := by
  have h1 : l1.drop (l1.length - k) = (l1.reverse.take k).reverse := by
    rw [List.reverse_take, List.reverse_reverse, List.length_reverse]
  have h2 : l2.drop (l2.length - k) = (l2.reverse.take k).reverse := by
    rw [List.reverse_take, List.reverse_reverse, List.length_reverse]
  rw [h1, h2, take_eq_of_le_lcpLen _ _ k hk]

/-- Strings append through their character lists. -/
theorem mk_append (a b : List Char) : String.mk a ++ String.mk b = String.mk (a ++ b) :=
  rfl

/-- Closed form of `get_smart_diff` on distinct strings. -/
theorem get_smart_diff_eq (l1 l2 : List Char) (h : (⟨l1⟩ : String) ≠ ⟨l2⟩) :
    get_smart_diff ⟨l1⟩ ⟨l2⟩ =
      (let p := retractFrontLen l1 (lcpLen l1 l2)
       let s := retractBackLen l1
         (min (lcpLen l1.reverse l2.reverse)
           (min (l1.length - lcpLen l1 l2) (l2.length - lcpLen l1 l2)))
       some (⟨l1.take p⟩, ⟨(l1.drop p).take (l1.length - s - p)⟩,
         ⟨(l2.drop p).take (l2.length - s - p)⟩, ⟨l1.drop (l1.length - s)⟩)) := by
  unfold get_smart_diff
  rw [if_neg h]

/-- The last element of a nonempty `take`. -/
theorem getLast?_take_eq (l : List Char) (p : Nat) (h1 : 0 < p) (h2 : p ≤ l.length) :
    (l.take p).getLast? = some (l.getD (p - 1) ' ') := by
  rw [List.getLast?_eq_getElem?, List.length_take_of_le h2, List.getElem?_take,
    if_pos (by omega), List.getD_eq_getElem?_getD,
    List.getElem?_eq_getElem (by omega : p - 1 < l.length)]
  rfl

/-- The first element of a `drop` that leaves something. -/
theorem head?_drop_eq (l : List Char) (n : Nat) (h : n < l.length) :
    (l.drop n).head? = some (l.getD n ' ') := by
  rw [List.head?_drop, List.getD_eq_getElem?_getD, List.getElem?_eq_getElem h]
  rfl

/-- C10: `_get_smart_diff` returns `None` exactly on equal inputs, and
otherwise its quadruple (prefix, diff1, diff2, suffix) reconstructs both
original names exactly: `prefix + diff1 + suffix == s1` and
`prefix + diff2 + suffix == s2`. -/
theorem get_smart_diff_reconstructs (s1 s2 : String) :
    (get_smart_diff s1 s2 = none ↔ s1 = s2) ∧
    (∀ pfx d1 d2 sfx, get_smart_diff s1 s2 = some (pfx, d1, d2, sfx) →
      pfx ++ d1 ++ sfx = s1 ∧ pfx ++ d2 ++ sfx = s2) := by
  obtain ⟨l1⟩ := s1
  obtain ⟨l2⟩ := s2
  by_cases h : (⟨l1⟩ : String) = ⟨l2⟩
  · refine ⟨by simp [get_smart_diff, h], ?_⟩
    intro pfx d1 d2 sfx hsome
    simp [get_smart_diff, h] at hsome
  · refine ⟨by simp [get_smart_diff, h], ?_⟩
    intro pfx d1 d2 sfx hsome
    rw [get_smart_diff_eq l1 l2 h] at hsome
    simp only [Option.some.injEq, Prod.mk.injEq] at hsome
    obtain ⟨hp, hd1, hd2, hs⟩ := hsome
    subst hp; subst hd1; subst hd2; subst hs
    set P := retractFrontLen l1 (lcpLen l1 l2) with hP
    set S := retractBackLen l1
      (min (lcpLen l1.reverse l2.reverse)
        (min (l1.length - lcpLen l1 l2) (l2.length - lcpLen l1 l2))) with hS
    have hPle : P ≤ lcpLen l1 l2 := retractFrontLen_le _ _
    have hSle : S ≤ min (lcpLen l1.reverse l2.reverse)
        (min (l1.length - lcpLen l1 l2) (l2.length - lcpLen l1 l2)) :=
      retractBackLen_le _ _
    have hSrev : S ≤ lcpLen l1.reverse l2.reverse :=
      le_trans hSle (min_le_left _ _)
    have hS1 : S ≤ l1.length - lcpLen l1 l2 :=
      le_trans hSle (le_trans (min_le_right _ _) (min_le_left _ _))
    have hS2 : S ≤ l2.length - lcpLen l1 l2 :=
      le_trans hSle (le_trans (min_le_right _ _) (min_le_right _ _))
    have hL1 : lcpLen l1 l2 ≤ l1.length := lcpLen_le_left _ _
    have hL2 : lcpLen l1 l2 ≤ l2.length := lcpLen_le_right _ _
    constructor
    · rw [mk_append, mk_append]
      exact congrArg String.mk
        (by rw [List.append_assoc]
            exact take_slice_drop l1 P (l1.length - S) (by omega))
    · have ht : l1.take P = l2.take P := take_eq_of_le_lcpLen l1 l2 P (by omega)
      have hd : l1.drop (l1.length - S) = l2.drop (l2.length - S) :=
        drop_eq_of_le_lcpLen_reverse l1 l2 S (by omega)
      rw [ht, hd, mk_append, mk_append]
      exact congrArg String.mk
        (by rw [List.append_assoc]
            exact take_slice_drop l2 P (l2.length - S) (by omega))

/-- C7: the diff computed by `_get_smart_diff` aligns to token boundaries:
the retraction only ever shrinks the character-wise common-prefix and
common-suffix lengths (so the differing span only grows), the returned prefix
is empty or ends with a delimiter, and the returned suffix is empty or begins
with a delimiter. -/
theorem get_smart_diff_token_boundaries (s1 s2 : String)
    (pfx d1 d2 sfx : String)
    (hsome : get_smart_diff s1 s2 = some (pfx, d1, d2, sfx)) :
    pfx.data.length ≤ lcpLen s1.data s2.data ∧
    sfx.data.length ≤ lcpLen s1.data.reverse s2.data.reverse ∧
    (pfx.data = [] ∨ ∃ c, pfx.data.getLast? = some c ∧ isDelim c = true) ∧
    (sfx.data = [] ∨ ∃ c, sfx.data.head? = some c ∧ isDelim c = true) := by
  obtain ⟨l1⟩ := s1
  obtain ⟨l2⟩ := s2
  by_cases h : (⟨l1⟩ : String) = ⟨l2⟩
  · simp [get_smart_diff, h] at hsome
  · rw [get_smart_diff_eq l1 l2 h] at hsome
    simp only [Option.some.injEq, Prod.mk.injEq] at hsome
    obtain ⟨hp, hd1, hd2, hs⟩ := hsome
    subst hp; subst hd1; subst hd2; subst hs
    set P := retractFrontLen l1 (lcpLen l1 l2) with hP
    set S := retractBackLen l1
      (min (lcpLen l1.reverse l2.reverse)
        (min (l1.length - lcpLen l1 l2) (l2.length - lcpLen l1 l2))) with hS
    have hPle : P ≤ lcpLen l1 l2 := retractFrontLen_le _ _
    have hSle : S ≤ min (lcpLen l1.reverse l2.reverse)
        (min (l1.length - lcpLen l1 l2) (l2.length - lcpLen l1 l2)) :=
      retractBackLen_le _ _
    have hSrev : S ≤ lcpLen l1.reverse l2.reverse :=
      le_trans hSle (min_le_left _ _)
    have hS1 : S ≤ l1.length - lcpLen l1 l2 :=
      le_trans hSle (le_trans (min_le_right _ _) (min_le_left _ _))
    have hL1 : lcpLen l1 l2 ≤ l1.length := lcpLen_le_left _ _
    refine ⟨?_, ?_, ?_, ?_⟩
    · exact le_trans (List.length_take_le _ _) hPle
    · calc (l1.drop (l1.length - S)).length = l1.length - (l1.length - S) := by
            rw [List.length_drop]
        _ ≤ S := by omega
        _ ≤ _ := hSrev
    · rcases retractFrontLen_boundary l1 (lcpLen l1 l2) with h0 | ⟨hpos, hdel⟩
      · left
        rw [← hP] at h0
        simp [h0]
      · right
        rw [← hP] at hpos hdel
        exact ⟨l1.getD (P - 1) ' ',
          getLast?_take_eq l1 P hpos (by omega), hdel⟩
    · rcases retractBackLen_boundary l1
          (min (lcpLen l1.reverse l2.reverse)
            (min (l1.length - lcpLen l1 l2) (l2.length - lcpLen l1 l2))) with
        h0 | ⟨hpos, hdel⟩
      · left
        rw [← hS] at h0
        simp [h0]
      · right
        rw [← hS] at hpos hdel
        exact ⟨l1.getD (l1.length - S) ' ',
          head?_drop_eq l1 (l1.length - S) (by omega), hdel⟩

/-- Witness for C7 at the spec's own example pair. -/
theorem get_smart_diff_token_boundaries_witness :
    ("run_" : String).data.length ≤
        lcpLen ("run_v1_final" : String).data ("run_v2_final" : String).data ∧
      ("_final" : String).data.length ≤
        lcpLen ("run_v1_final" : String).data.reverse
          ("run_v2_final" : String).data.reverse ∧
      (("run_" : String).data = [] ∨
        ∃ c, ("run_" : String).data.getLast? = some c ∧ isDelim c = true) ∧
      (("_final" : String).data = [] ∨
        ∃ c, ("_final" : String).data.head? = some c ∧ isDelim c = true) :=
  get_smart_diff_token_boundaries "run_v1_final" "run_v2_final"
    "run_" "v1" "v2" "_final" (by decide)

/-- Witness for C10's conditional half at a concrete pair. -/
theorem get_smart_diff_reconstructs_witness :
    ("run_" : String) ++ "v1" ++ "_final" = "run_v1_final" ∧
      ("run_" : String) ++ "v2" ++ "_final" = "run_v2_final" :=
  (get_smart_diff_reconstructs "run_v1_final" "run_v2_final").2
    "run_" "v1" "v2" "_final" (by decide)

/-- Boolean acceptance test as a proposition. -/
theorem mergeCondition_iff (D L : Nat) :
    mergeCondition D L = true ↔ (D < L / 4 ∨ (D < 5 ∧ D < L / 2)) := by
  simp [mergeCondition]


/-- C5: for an eligible adjacent pair with non-identical names, the merge is
accepted iff D < L/4 or (D < 5 and D < L/2), where D is the length of the
candidate-side differing span after delimiter retraction and L the length of
the candidate's full name (Python integer division); and exactly equal names
never merge. -/
theorem coalesce_accepts_iff (cur : Entry) (j : Job) :
    (eligible cur j = true →
      ∀ pfx d1 d2 sfx,
        get_smart_diff cur.displayName j.name = some (pfx, d1, d2, sfx) →
        ((mergeStep cur j).isSome = true ↔
          (d2.length < j.name.length / 4 ∨
            (d2.length < 5 ∧ d2.length < j.name.length / 2)))) ∧
    (cur.displayName = j.name → mergeStep cur j = none) := by
  constructor
  · intro helig pfx d1 d2 sfx hdiff
    rw [← mergeCondition_iff]
    unfold mergeStep
    rw [helig, hdiff]
    by_cases hc : mergeCondition d2.length j.name.length = true
    · simp [hc]
    · simp [hc]
  · intro heq
    unfold mergeStep
    rw [heq]
    have hnone : get_smart_diff j.name j.name = none := by
      simp [get_smart_diff]
    rw [hnone]
    split <;> rfl

/-- Witness for C5 at the spec's example pair (D = 2, L = 12). -/
theorem coalesce_accepts_iff_witness :
    eligible (Entry.job (exJob 1 "run_v1_final")) (exJob 2 "run_v2_final") = true ∧
    get_smart_diff (Entry.job (exJob 1 "run_v1_final")).displayName
        (exJob 2 "run_v2_final").name = some ("run_", "v1", "v2", "_final") ∧
    (mergeStep (Entry.job (exJob 1 "run_v1_final")) (exJob 2 "run_v2_final")).isSome
      = true :=
  ⟨by decide, by decide,
    ((coalesce_accepts_iff (Entry.job (exJob 1 "run_v1_final"))
          (exJob 2 "run_v2_final")).1 (by decide)
        "run_" "v1" "v2" "_final" (by decide)).mpr (by decide)⟩

/-- C6: an accepted merge synthesizes the group name as
prefix ++ "[" ++ comma-joined diff tokens ++ "]" ++ suffix, splicing a new
token into an already-bracketed diff region instead of nesting brackets; in
particular run_v1_final/run_v2_final merge to run_[v1,v2]_final, and a third
run_v3_final splices in, giving run_[v1,v2,v3]_final. -/
theorem coalesce_combined_name (cur : Entry) (j : Job) (e : Entry)
    (pfx d1 d2 sfx : String)
    (hstep : mergeStep cur j = some e)
    (hdiff : get_smart_diff cur.displayName j.name = some (pfx, d1, d2, sfx)) :
    e.displayName =
      (if pyStartsWith d1 "[" && pyEndsWith d1 "]" then
        pfx ++ "[" ++ (pyDropRight (pyDrop d1 1) 1) ++ "," ++ d2 ++ "]" ++ sfx
      else
        pfx ++ "[" ++ d1 ++ "," ++ d2 ++ "]" ++ sfx) ∧
    (coalesce_jobs [exJob 1 "run_v1_final", exJob 2 "run_v2_final"]).map
        Entry.displayName = ["run_[v1,v2]_final"] ∧
    (coalesce_jobs
        [exJob 1 "run_v1_final", exJob 2 "run_v2_final",
          exJob 3 "run_v3_final"]).map Entry.displayName
      = ["run_[v1,v2,v3]_final"] := by
  refine ⟨?_, by decide, by decide⟩
  unfold mergeStep at hstep
  split at hstep
  · rw [hdiff] at hstep
    by_cases hc : mergeCondition d2.length j.name.length = true
    · simp only [hc, if_true, Option.some.injEq] at hstep
      subst hstep
      rfl
    · simp [hc] at hstep
  · simp at hstep

/-- Witness for C6 at the spec's example merge. -/
theorem coalesce_combined_name_witness :
    (Entry.group
        ⟨1, "p1", "run_v1_final", "u1", "PENDING", 0, 1, "", "", "Priority", 1, 1,
          [1, 2], "run_[v1,v2]_final"⟩).displayName =
      (if pyStartsWith "v1" "[" && pyEndsWith "v1" "]" then
        ("run_" : String) ++ "[" ++ (pyDropRight (pyDrop "v1" 1) 1) ++ "," ++ "v2"
          ++ "]" ++ "_final"
      else
        ("run_" : String) ++ "[" ++ "v1" ++ "," ++ "v2" ++ "]" ++ "_final") ∧
    (coalesce_jobs [exJob 1 "run_v1_final", exJob 2 "run_v2_final"]).map
        Entry.displayName = ["run_[v1,v2]_final"] ∧
    (coalesce_jobs
        [exJob 1 "run_v1_final", exJob 2 "run_v2_final",
          exJob 3 "run_v3_final"]).map Entry.displayName
      = ["run_[v1,v2,v3]_final"] :=
  coalesce_combined_name (Entry.job (exJob 1 "run_v1_final")) (exJob 2 "run_v2_final")
    (Entry.group
      ⟨1, "p1", "run_v1_final", "u1", "PENDING", 0, 1, "", "", "Priority", 1, 1,
        [1, 2], "run_[v1,v2]_final"⟩)
    "run_" "v1" "v2" "_final" (by decide) (by decide)

/-! ### Identifier bookkeeping for the merge pass -/

theorem flattenIds_cons (e : Entry) (es : List Entry) :
    flattenIds (e :: es) = e.idsOf ++ flattenIds es := rfl

theorem flattenIds_append (a b : List Entry) :
    flattenIds (a ++ b) = flattenIds a ++ flattenIds b := by
  induction a with
  | nil => simp [flattenIds]
  | cons e a ih => simp [flattenIds_cons, ih, List.append_assoc]

/-- A successful merge step appends exactly the candidate's identifier. -/
theorem mergeStep_idsOf (cur : Entry) (j : Job) (e : Entry)
    (hstep : mergeStep cur j = some e) :
    e.idsOf = cur.idsOf ++ [j.job_id] := by
  unfold mergeStep at hstep
  split at hstep
  · cases hdiff : get_smart_diff cur.displayName j.name with
    | none => rw [hdiff] at hstep; simp at hstep
    | some q =>
      obtain ⟨pfx, d1, d2, sfx⟩ := q
      rw [hdiff] at hstep
      by_cases hc : mergeCondition d2.length j.name.length = true
      · simp only [hc, if_true, Option.some.injEq] at hstep
        subst hstep
        cases cur with
        | job j0 => rfl
        | group g => rfl
      · simp [hc] at hstep
  · simp at hstep

theorem flattenIds_coalesceAux (rest : List Job) :
    ∀ cur : Entry,
      flattenIds (coalesceAux cur rest) = cur.idsOf ++ rest.map Job.job_id := by
  induction rest with
  | nil => intro cur; simp [coalesceAux, flattenIds]
  | cons j rest ih =>
    intro cur
    simp only [coalesceAux]
    cases hstep : mergeStep cur j with
    | some merged =>
      simp only [hstep, ih merged, mergeStep_idsOf cur j merged hstep,
        List.map_cons, List.append_assoc, List.singleton_append]
    | none =>
      simp only [hstep, flattenIds_cons, ih (Entry.job j), Entry.idsOf,
        List.map_cons, List.singleton_append]

theorem coalesceAux_length (rest : List Job) :
    ∀ cur : Entry, (coalesceAux cur rest).length ≤ rest.length + 1 := by
  induction rest with
  | nil => intro cur; simp [coalesceAux]
  | cons j rest ih =>
    intro cur
    simp only [coalesceAux]
    cases hstep : mergeStep cur j with
    | some merged =>
      simp only [hstep]
      have := ih merged
      simp only [List.length_cons]
      omega
    | none =>
      simp only [hstep, List.length_cons]
      have := ih (Entry.job j)
      omega

/-- C2: flattening the output of `coalesce_jobs` gives back exactly the input
identifier sequence in order; hence the total job count is preserved, the
output is no longer than the input, only adjacent elements are combined, and
distinct input identifiers stay distinct. -/
theorem coalesce_preserves_ids (jobs : List Job) :
    flattenIds (coalesce_jobs jobs) = jobs.map Job.job_id ∧
    (flattenIds (coalesce_jobs jobs)).length = jobs.length ∧
    (coalesce_jobs jobs).length ≤ jobs.length ∧
    ((jobs.map Job.job_id).Nodup → (flattenIds (coalesce_jobs jobs)).Nodup) := by
  have hflat : flattenIds (coalesce_jobs jobs) = jobs.map Job.job_id := by
    cases jobs with
    | nil => rfl
    | cons j rest =>
      simpa [coalesce_jobs, Entry.idsOf] using flattenIds_coalesceAux rest (Entry.job j)
  refine ⟨hflat, by rw [hflat, List.length_map], ?_, fun h => hflat ▸ h⟩
  cases jobs with
  | nil => simp [coalesce_jobs]
  | cons j rest =>
    have := coalesceAux_length rest (Entry.job j)
    simpa [coalesce_jobs] using this

/-- Witness for C2's no-duplication implication at a concrete snapshot. -/
theorem coalesce_preserves_ids_witness :
    ([exJob 1 "run_v1_final", exJob 2 "run_v2_final",
        exJob 7 "other"].map Job.job_id).Nodup ∧
    (flattenIds (coalesce_jobs
        [exJob 1 "run_v1_final", exJob 2 "run_v2_final", exJob 7 "other"])).Nodup :=
  ⟨by decide,
    (coalesce_preserves_ids
      [exJob 1 "run_v1_final", exJob 2 "run_v2_final", exJob 7 "other"]).2.2.2
      (by decide)⟩

/-! ### Eligibility and group-membership invariants of the merge pass -/

/-- A successful merge requires the eligibility gate of `coalesce_jobs`. -/
theorem mergeStep_eligible (cur : Entry) (j : Job) (e : Entry)
    (hstep : mergeStep cur j = some e) :
    cur.job_state ≠ "RUNNING" ∧ j.job_state ≠ "RUNNING" ∧
    cur.partition = j.partition ∧ cur.user_name = j.user_name ∧
    cur.job_state = j.job_state ∧ cur.state_reason = j.state_reason := by
  unfold mergeStep at hstep
  split at hstep
  · next helig =>
    simp only [eligible, Bool.and_eq_true, decide_eq_true_eq] at helig
    obtain ⟨⟨⟨⟨⟨h1, h2⟩, h3⟩, h4⟩, h5⟩, h6⟩ := helig
    exact ⟨h1, h2, h3, h4, h5, h6⟩
  · simp at hstep


theorem entrySupported_step (S : List Job) (cur : Entry) (j : Job) (e : Entry)
    (hsup : entrySupported S cur) (hj : j ∈ S) (hstep : mergeStep cur j = some e) :
    entrySupported S e := by
  obtain ⟨hr1, hr2, hp, hu, hs, hsr⟩ := mergeStep_eligible cur j e hstep
  unfold mergeStep at hstep
  split at hstep
  · cases hdiff : get_smart_diff cur.displayName j.name with
    | none => rw [hdiff] at hstep; simp at hstep
    | some q =>
      obtain ⟨pfx, d1, d2, sfx⟩ := q
      rw [hdiff] at hstep
      by_cases hc : mergeCondition d2.length j.name.length = true
      · simp only [hc, if_true, Option.some.injEq] at hstep
        subst hstep
        cases cur with
        | job j0 =>
          refine ⟨hr1, ?_⟩
          intro id hid
          simp only [Entry.toGroup, JobGroup.ofJob, List.singleton_append,
            List.mem_cons, List.mem_singleton] at hid
          rcases hid with rfl | rfl | hid
          · exact ⟨j0, hsup, rfl, rfl, rfl, rfl, rfl⟩
          · exact ⟨j, hj, rfl, hp.symm, hu.symm, hs.symm, hsr.symm⟩
          · simp at hid
        | group g0 =>
          obtain ⟨hg1, hg2⟩ := hsup
          refine ⟨hg1, ?_⟩
          intro id hid
          rcases List.mem_append.mp hid with hid | hid
          · exact hg2 id hid
          · rcases List.mem_singleton.mp hid with rfl
            exact ⟨j, hj, rfl, hp.symm, hu.symm, hs.symm, hsr.symm⟩
      · simp [hc] at hstep
  · simp at hstep

theorem coalesceAux_supported (S : List Job) (rest : List Job) :
    ∀ cur : Entry, entrySupported S cur → (∀ j ∈ rest, j ∈ S) →
      ∀ e ∈ coalesceAux cur rest, entrySupported S e := by
  induction rest with
  | nil =>
    intro cur hcur _ e he
    simp only [coalesceAux, List.mem_singleton] at he
    subst he
    exact hcur
  | cons j rest ih =>
    intro cur hcur hrest e he
    simp only [coalesceAux] at he
    cases hstep : mergeStep cur j with
    | some merged =>
      rw [hstep] at he
      exact ih merged
        (entrySupported_step S cur j merged hcur (hrest j (by simp)) hstep)
        (fun x hx => hrest x (by simp [hx])) e he
    | none =>
      rw [hstep] at he
      rcases List.mem_cons.mp he with rfl | he2
      · exact hcur
      · exact ih (Entry.job j) (hrest j (by simp))
          (fun x hx => hrest x (by simp [hx])) e he2

/-- C8: merges happen only under the eligibility gate (both sides non-RUNNING
and partition, user, state, pending reason equal); every output group
consists solely of jobs agreeing with it on those fields, and each output
element's identifiers form one contiguous block of the input identifier
sequence, so jobs separated by a non-mergeable element never share a
group. -/
theorem coalesce_group_invariant (jobs : List Job) (e : Entry)
    (he : e ∈ coalesce_jobs jobs) :
    (∀ g, e = Entry.group g →
      g.job_state ≠ "RUNNING" ∧
      ∀ id ∈ g.ids, ∃ j ∈ jobs, j.job_id = id ∧ j.partition = g.partition ∧
        j.user_name = g.user_name ∧ j.job_state = g.job_state ∧
        j.state_reason = g.state_reason) ∧
    (∃ pre post, jobs.map Job.job_id = pre ++ e.idsOf ++ post) ∧
    (∀ (cur : Entry) (j : Job) (e2 : Entry), mergeStep cur j = some e2 →
      cur.job_state ≠ "RUNNING" ∧ j.job_state ≠ "RUNNING" ∧
      cur.partition = j.partition ∧ cur.user_name = j.user_name ∧
      cur.job_state = j.job_state ∧ cur.state_reason = j.state_reason) := by
  refine ⟨?_, ?_, fun cur j e2 h => mergeStep_eligible cur j e2 h⟩
  · intro g hg
    subst hg
    cases jobs with
    | nil => simp [coalesce_jobs] at he
    | cons j rest =>
      have hsup := coalesceAux_supported (j :: rest) rest (Entry.job j)
        (by simp [entrySupported]) (fun x hx => by simp [hx]) _ he
      exact hsup
  · obtain ⟨l1, l2, hsplit⟩ := List.append_of_mem he
    refine ⟨flattenIds l1, flattenIds l2, ?_⟩
    have hflat : flattenIds (coalesce_jobs jobs) = jobs.map Job.job_id := by
      cases jobs with
      | nil => rfl
      | cons j rest =>
        simpa [coalesce_jobs, Entry.idsOf] using
          flattenIds_coalesceAux rest (Entry.job j)
    rw [← hflat, hsplit, flattenIds_append, flattenIds_cons, List.append_assoc]

/-- Witness for C8 at a concrete merged group. -/
theorem coalesce_group_invariant_witness :
    (∀ g, wGroupEntry = Entry.group g →
      g.job_state ≠ "RUNNING" ∧
      ∀ id ∈ g.ids, ∃ j ∈ wGroupJobs, j.job_id = id ∧ j.partition = g.partition ∧
        j.user_name = g.user_name ∧ j.job_state = g.job_state ∧
        j.state_reason = g.state_reason) ∧
    (∃ pre post, wGroupJobs.map Job.job_id = pre ++ wGroupEntry.idsOf ++ post) ∧
    (∀ (cur : Entry) (j : Job) (e2 : Entry), mergeStep cur j = some e2 →
      cur.job_state ≠ "RUNNING" ∧ j.job_state ≠ "RUNNING" ∧
      cur.partition = j.partition ∧ cur.user_name = j.user_name ∧
      cur.job_state = j.job_state ∧ cur.state_reason = j.state_reason) :=
  coalesce_group_invariant wGroupJobs wGroupEntry (by decide)

/-! ### The classifier on concrete snapshots -/

/-- C1: on the spec's example snapshot the classifier yields [B, A, C, D],
but as soon as a bucket keyed by a qos-containing pending reason is present
the classifier does not emit it in position: it raises a `RuntimeError`
(`job_categories` is popped during iteration), embedded as `Except.error`. -/
theorem sort_jobs_example_and_qos_bug :
    sort_jobs [jobA, jobC, jobB, jobD] = Except.ok [jobB, jobA, jobC, jobD] ∧
    sort_jobs [jobA, jobC, jobB, jobD, jobQ] =
      Except.error "RuntimeError: dictionary changed size during iteration" :=
  ⟨rfl, rfl⟩

/-- C4: the classifier is not total — a snapshot holding a job whose pending
reason contains "qos" makes `sort_jobs` raise instead of returning. -/
theorem sort_jobs_qos_raises :
    sort_jobs [jobQ2] =
      Except.error "RuntimeError: dictionary changed size during iteration" :=
  rfl

/-! ### Association-list facts for the resource accountant -/

section AListFacts

variable {α : Type}

theorem map_replace_keys (d : List (String × α)) (k : String) (v : α) :
    (d.map (fun e => if e.1 == k then (k, v) else e)).map Prod.fst
      = d.map Prod.fst := by
  rw [List.map_map]
  apply List.map_congr_left
  intro e he
  cases hbe : (e.1 == k) with
  | false => simp [Function.comp, hbe]
  | true =>
    have he1 : e.1 = k := beq_iff_eq.mp hbe
    simp [Function.comp, hbe, he1]

theorem any_key_iff (d : List (String × α)) (k : String) :
    d.any (fun e => e.1 == k) = true ↔ k ∈ d.map Prod.fst := by
  rw [List.any_eq_true]
  simp only [List.mem_map, beq_iff_eq]

theorem upsert_keys_of_present (d : List (String × α)) (k : String) (v : α)
    (h : d.any (fun e => e.1 == k) = true) :
    (upsert d k v).map Prod.fst = d.map Prod.fst := by
  unfold upsert
  rw [if_pos h]
  exact map_replace_keys d k v

theorem mem_upsert_keys (d : List (String × α)) (k' : String) (v : α) (k : String) :
    k ∈ (upsert d k' v).map Prod.fst ↔ (k ∈ d.map Prod.fst ∨ k = k') := by
  unfold upsert
  split
  · next h =>
    rw [map_replace_keys]
    constructor
    · exact Or.inl
    · rintro (hm | rfl)
      · exact hm
      · exact (any_key_iff d k).mp h
  · simp [List.mem_append]

theorem alookup_isSome_iff (d : List (String × α)) (k : String) :
    (alookup d k).isSome = true ↔ k ∈ d.map Prod.fst := by
  unfold alookup
  cases hf : d.find? (fun e => e.1 == k) with
  | none =>
    simp only [hf, Option.map_none', Option.isSome_none, Bool.false_eq_true,
      false_iff]
    intro hk
    obtain ⟨e, he, rfl⟩ := List.mem_map.mp hk
    have := List.find?_eq_none.mp hf e he
    simp at this
  | some e =>
    simp only [hf, Option.map_some', Option.isSome_some, true_iff]
    exact List.mem_map.mpr
      ⟨e, List.mem_of_find?_eq_some hf,
        beq_iff_eq.mp (by simpa using List.find?_some hf)⟩

theorem alookup_mem_values (d : List (String × α)) (k : String) (v : α)
    (h : alookup d k = some v) : ∃ e ∈ d, e.1 = k ∧ e.2 = v := by
  unfold alookup at h
  cases hf : d.find? (fun e => e.1 == k) with
  | none => rw [hf] at h; simp at h
  | some e =>
    rw [hf] at h
    have hpe : (e.1 == k) = true := by simpa using List.find?_some hf
    refine ⟨e, List.mem_of_find?_eq_some hf, beq_iff_eq.mp hpe, ?_⟩
    simpa using h

theorem alookup_map_keep (d : List (String × α)) (f : String × α → String × α)
    (k : String) (hf1 : ∀ e, (f e).1 = e.1) (hf2 : ∀ e, e.1 = k → f e = e) :
    alookup (d.map f) k = alookup d k := by
  induction d with
  | nil => rfl
  | cons e d ih =>
    rw [List.map_cons]
    unfold alookup
    rw [List.find?_cons, List.find?_cons, hf1 e]
    cases hek : (e.1 == k) with
    | true =>
      simp only [hek]
      rw [hf2 e (beq_iff_eq.mp hek)]
    | false =>
      simp only [hek]
      exact ih

end AListFacts

/-- Fold induction: a predicate preserved by every step holds of the fold. -/
theorem foldl_rec {α β : Type} (P : β → Prop) (f : β → α → β) :
    ∀ (l : List α) (b : β), P b → (∀ b2 x, x ∈ l → P b2 → P (f b2 x)) →
      P (l.foldl f b) := by
  intro l
  induction l with
  | nil =>
    intro b hb _
    exact hb
  | cons x l ih =>
    intro b hb hstep
    exact ih (f b x) (hstep b x (by simp) hb)
      (fun b2 y hy hb2 => hstep b2 y (by simp [hy]) hb2)

/-- Every value in the initial usage table is the empty per-node record. -/
theorem initUsage_values (nodes : List Node) :
    ∀ e ∈ initUsage nodes, e.2 = emptyUsage := by
  unfold initUsage
  refine foldl_rec
    (fun u : List (String × NodeUsage) => ∀ e ∈ u, e.2 = emptyUsage) _
    nodes [] (by simp) ?_
  intro b n hn hb e he
  unfold upsert at he
  split at he
  · obtain ⟨x, hx, rfl⟩ := List.mem_map.mp he
    cases hbe : (x.1 == n.name) with
    | true => simp [hbe]
    | false =>
      simp only [hbe, Bool.false_eq_true, if_false]
      exact hb x hx
  · rcases List.mem_append.mp he with h | h
    · exact hb e h
    · simp only [List.mem_singleton] at h
      subst h
      rfl

/-- Key membership in the initial usage table is exactly node-name
membership. -/
theorem mem_initUsage_keys (nodes : List Node) :
    ∀ (init : List (String × NodeUsage)) (k : String),
      k ∈ (nodes.foldl (fun u n => upsert u n.name emptyUsage) init).map Prod.fst
        ↔ (k ∈ init.map Prod.fst ∨ k ∈ nodes.map Node.name) := by
  induction nodes with
  | nil => simp
  | cons n nodes ih =>
    intro init k
    simp only [List.foldl_cons, List.map_cons, List.mem_cons]
    rw [ih, mem_upsert_keys]
    tauto

/-- Touching a node neither adds nor removes keys. -/
theorem touchNode_keys (job : Job) (ca ga ma : Int)
    (u : List (String × NodeUsage)) (nodeName : String) :
    (touchNode job ca ga ma u nodeName).map Prod.fst = u.map Prod.fst := by
  unfold touchNode
  split
  · rfl
  · rw [List.map_map]
    apply List.map_congr_left
    intro e he
    cases hbe : (e.1 == nodeName) with
    | true => simp [Function.comp, hbe]
    | false => simp [Function.comp, hbe]

/-- Applying one job preserves the key list of the usage table. -/
theorem applyJob_keys (expand : String → List String)
    (u : List (String × NodeUsage)) (job : Job) :
    (applyJob expand u job).map Prod.fst = u.map Prod.fst := by
  unfold applyJob
  split
  · rfl
  · split
    · rfl
    · refine foldl_rec (fun w => w.map Prod.fst = u.map Prod.fst) _
        (expand job.nodelist) u rfl ?_
      intro b nodeName hnode hb
      rw [touchNode_keys, hb]

/-- The accountant's key list is the initial table's key list. -/
theorem calc_usage_keys (expand : String → List String)
    (nodes : List Node) (jobs : List Job) :
    (calculate_node_usage expand nodes jobs).map Prod.fst =
      (initUsage nodes).map Prod.fst := by
  unfold calculate_node_usage
  refine foldl_rec (fun w => w.map Prod.fst = (initUsage nodes).map Prod.fst) _
    jobs (initUsage nodes) rfl ?_
  intro b job hjob hb
  rw [applyJob_keys, hb]

/-- A node name outside every touched node keeps its binding through one
touch. -/
theorem touchNode_alookup_ne (job : Job) (ca ga ma : Int)
    (u : List (String × NodeUsage)) (nodeName k : String) (hne : k ≠ nodeName) :
    alookup (touchNode job ca ga ma u nodeName) k = alookup u k := by
  unfold touchNode
  split
  · rfl
  · apply alookup_map_keep
    · intro e
      cases hbe : (e.1 == nodeName) with
      | true => simp [hbe]
      | false => simp [hbe]
    · intro e hek
      have : (e.1 == nodeName) = false := by
        rw [hek]
        exact beq_eq_false_iff_ne.mpr hne
      simp [this]

/-- A job that does not touch `k` leaves the binding of `k` unchanged. -/
theorem applyJob_alookup_untouched (expand : String → List String)
    (u : List (String × NodeUsage)) (job : Job) (k : String)
    (hk : job.job_state = "RUNNING" → k ∉ expand job.nodelist) :
    alookup (applyJob expand u job) k = alookup u k := by
  unfold applyJob
  split
  · rfl
  · next hrun =>
    have hstate : job.job_state = "RUNNING" := by
      by_contra h
      exact hrun h
    split
    · rfl
    · refine foldl_rec (fun w => alookup w k = alookup u k) _
        (expand job.nodelist) u rfl ?_
      intro b nodeName hnode hb
      rw [touchNode_alookup_ne _ _ _ _ b nodeName k
        (fun h => hk hstate (h ▸ hnode)), hb]

/-- C9: the key set of the usage mapping returned by `calculate_node_usage`
is exactly the node snapshot's name set — nodes with no RUNNING job allocated
to them still appear, bound to the empty per-resource record, and node names
outside the snapshot are silently ignored (they never become keys). -/
theorem calculate_node_usage_node_keys (expand : String → List String)
    (nodes : List Node) (jobs : List Job) :
    (∀ k, (alookup (calculate_node_usage expand nodes jobs) k).isSome = true ↔
      k ∈ nodes.map Node.name) ∧
    (∀ n ∈ nodes,
      (∀ j ∈ jobs, j.job_state = "RUNNING" → n.name ∉ expand j.nodelist) →
      alookup (calculate_node_usage expand nodes jobs) n.name = some emptyUsage) := by
  constructor
  · intro k
    rw [alookup_isSome_iff, calc_usage_keys]
    simpa [initUsage] using mem_initUsage_keys nodes [] k
  · intro n hn hnotouch
    have huntouched : alookup (calculate_node_usage expand nodes jobs) n.name =
        alookup (initUsage nodes) n.name := by
      unfold calculate_node_usage
      refine foldl_rec
        (fun w => alookup w n.name = alookup (initUsage nodes) n.name) _
        jobs (initUsage nodes) rfl ?_
      intro b job hjob hb
      rw [applyJob_alookup_untouched expand b job n.name (hnotouch job hjob), hb]
    rw [huntouched]
    have h1 : (alookup (initUsage nodes) n.name).isSome = true := by
      rw [alookup_isSome_iff]
      exact (by
        simpa [initUsage] using (mem_initUsage_keys nodes [] n.name).mpr
          (Or.inr (List.mem_map_of_mem Node.name hn)))
    obtain ⟨v, hv⟩ := Option.isSome_iff_exists.mp h1
    obtain ⟨e, he, hek, hev⟩ := alookup_mem_values _ _ _ hv
    rw [hv, ← hev, initUsage_values nodes e he]

/-- Witness for C9 at a one-node snapshot with one pending job. -/
theorem calculate_node_usage_node_keys_witness :
    alookup (calculate_node_usage expandN1 [exNode1] [jobC]) "n1"
      = some emptyUsage :=
  (calculate_node_usage_node_keys expandN1 [exNode1] [jobC]).2 exNode1
    (by decide) (by decide)

/-- Bumping an already-present resource key keeps the key list. -/
theorem bumpRes_keys (u : NodeUsage) (res p : String) (a : Int)
    (h : res ∈ u.map Prod.fst) :
    (bumpRes u res p a).map Prod.fst = u.map Prod.fst := by
  unfold bumpRes
  split
  · exact upsert_keys_of_present _ _ _ ((any_key_iff u res).mpr h)
  · rfl

/-- One accumulation never changes the resource-type key list. -/
theorem addAlloc_keys (u : NodeUsage) (p : String) (c g m : Int)
    (h : u.map Prod.fst = ["cpus", "gpus", "memory"]) :
    (addAlloc u p c g m).map Prod.fst = ["cpus", "gpus", "memory"] := by
  unfold addAlloc
  have hc : (bumpRes u "cpus" p c).map Prod.fst = u.map Prod.fst :=
    bumpRes_keys _ _ _ _ (by rw [h]; simp)
  have hg : (bumpRes (bumpRes u "cpus" p c) "gpus" p g).map Prod.fst
      = (bumpRes u "cpus" p c).map Prod.fst :=
    bumpRes_keys _ _ _ _ (by rw [hc, h]; simp)
  have hm : (bumpRes (bumpRes (bumpRes u "cpus" p c) "gpus" p g) "memory" p m).map
        Prod.fst
      = (bumpRes (bumpRes u "cpus" p c) "gpus" p g).map Prod.fst :=
    bumpRes_keys _ _ _ _ (by rw [hg, hc, h]; simp)
  rw [hm, hg, hc, h]

theorem touchNode_value_keys (job : Job) (ca ga ma : Int)
    (u : List (String × NodeUsage)) (nodeName : String)
    (h : ∀ e ∈ u, e.2.map Prod.fst = ["cpus", "gpus", "memory"]) :
    ∀ e ∈ touchNode job ca ga ma u nodeName,
      e.2.map Prod.fst = ["cpus", "gpus", "memory"] := by
  unfold touchNode
  split
  · exact h
  · intro e he
    obtain ⟨x, hx, rfl⟩ := List.mem_map.mp he
    cases hbe : (x.1 == nodeName) with
    | true =>
      rw [if_pos rfl]
      exact addAlloc_keys _ _ _ _ _ (h x hx)
    | false =>
      rw [if_neg (by simp)]
      exact h x hx

theorem applyJob_value_keys (expand : String → List String)
    (u : List (String × NodeUsage)) (job : Job)
    (h : ∀ e ∈ u, e.2.map Prod.fst = ["cpus", "gpus", "memory"]) :
    ∀ e ∈ applyJob expand u job,
      e.2.map Prod.fst = ["cpus", "gpus", "memory"] := by
  unfold applyJob
  split
  · exact h
  · split
    · exact h
    · refine foldl_rec
        (fun w : List (String × NodeUsage) =>
          ∀ e ∈ w, e.2.map Prod.fst = ["cpus", "gpus", "memory"]) _
        (expand job.nodelist) u h ?_
      intro b nodeName hnode hb
      exact touchNode_value_keys job _ _ _ b nodeName hb

/-- Every per-node value of the accountant's output carries exactly the
resource-type keys "cpus", "gpus", "memory", in that order. -/
theorem calc_usage_value_keys (expand : String → List String)
    (nodes : List Node) (jobs : List Job) :
    ∀ e ∈ calculate_node_usage expand nodes jobs,
      e.2.map Prod.fst = ["cpus", "gpus", "memory"] := by
  unfold calculate_node_usage
  refine foldl_rec
    (fun w : List (String × NodeUsage) =>
      ∀ e ∈ w, e.2.map Prod.fst = ["cpus", "gpus", "memory"]) _
    jobs (initUsage nodes) ?_ ?_
  · intro e he
    rw [initUsage_values nodes e he]
    rfl
  · intro b job hjob hb
    exact applyJob_value_keys expand b job hb

/-- C3 counterexample: at the spec's own example, the per-node mapping has no
key "cpu" and no key "gpu" — the code keys the resource types "cpus" and
"gpus" (so `usage["n1"]["cpu"]["dev"] == 8` as claimed would be a KeyError). -/
theorem calculate_node_usage_key_mismatch :
    alookup (getD (calculate_node_usage expandN1 [exNode1] [usageJob1])
      "n1" emptyUsage) "cpu" = none ∧
    alookup (getD (calculate_node_usage expandN1 [exNode1] [usageJob1])
      "n1" emptyUsage) "gpu" = none ∧
    alookup (getD (calculate_node_usage expandN1 [exNode1] [usageJob1])
      "n1" emptyUsage) "cpus" = some [("dev", 8)] := by
  decide

/-- C3 (amended): the accountant maps each node to resource-type keys "cpus",
"gpus", "memory"; on the example snapshot the RUNNING job with per-node
cpu=8, gpu=2 on node n1/partition dev gives cpus→8 and gpus→2, and a second
cpu=4 job on the same node and partition accumulates cpus→12. -/
theorem calculate_node_usage_amended :
    (∀ (expand : String → List String) (nodes : List Node) (jobs : List Job),
      ∀ e ∈ calculate_node_usage expand nodes jobs,
        e.2.map Prod.fst = ["cpus", "gpus", "memory"]) ∧
    getD (getD (getD (calculate_node_usage expandN1 [exNode1] [usageJob1])
      "n1" emptyUsage) "cpus" []) "dev" 0 = 8 ∧
    getD (getD (getD (calculate_node_usage expandN1 [exNode1] [usageJob1])
      "n1" emptyUsage) "gpus" []) "dev" 0 = 2 ∧
    getD (getD (getD (calculate_node_usage expandN1 [exNode1]
      [usageJob1, usageJob2]) "n1" emptyUsage) "cpus" []) "dev" 0 = 12 ∧
    getD (getD (getD (calculate_node_usage expandN1 [exNode1]
      [usageJob1, usageJob2]) "n1" emptyUsage) "gpus" []) "dev" 0 = 2 :=
  ⟨calc_usage_value_keys, by decide, by decide, by decide, by decide⟩

/-- Witness for C3's universal key-structure conjunct at a concrete output
entry. -/
theorem calculate_node_usage_amended_witness :
    ((("n1", [("cpus", [("dev", 8)]), ("gpus", [("dev", 2)]), ("memory", [])])
        : String × NodeUsage)).2.map Prod.fst = ["cpus", "gpus", "memory"] :=
  calculate_node_usage_amended.1 expandN1 [exNode1] [usageJob1] _ (by decide)

end SLTools
